import Mathlib

/-!
Verification development for the recursive web crawler repository.

The repository's visible sources (`demo.py`, `diagnose_override.py`,
`example_corrected_paths.py`) are demonstration and diagnostic glue around a
Scraper Engine (`web_scraper.py` / class `WebScraper`) that is not part of the
visible sources.  Definitions below that embed visible code say so in their
doc comment; definitions for the Engine itself are modelled from the
specification (`spec.md`) and are marked `Modelled from the spec:`.

Machine strings are Lean `String`s; all string scanning is implemented over
`List Char` so that every definition computes by kernel reduction.
-/

/-- A parsed URL, as produced by Python's `urlparse` for simple
`scheme://host/path` URLs: `scheme`, network location (`host`), and the `path`
component (empty for `https://example.com`, `"/"` for `https://example.com/`).
Query strings and fragments play no role in the claims and are not modelled. -/
structure Url where
  scheme : String
  host : String
  path : String
deriving DecidableEq, Repr

def renderUrl (u : Url) : String := u.scheme ++ "://" ++ u.host ++ u.path

/-- Embedded from `src/diagnose_override.py` line 28:
`is_root = parsed_url.path in ['/', '']`. -/
def is_root (path : String) : Bool := path = "/" || path = ""

/-- Boolean prefix test on character lists (structural replacement for
`str.startswith`). -/
def leadsWith : List Char → List Char → Bool
  | [], _ => true
  | _ :: _, [] => false
  | p :: ps, c :: cs => p = c && leadsWith ps cs

def strBeginsWith (p s : String) : Bool := leadsWith p.toList s.toList

def strDropN (n : Nat) (s : String) : String := String.mk (s.toList.drop n)

/-- Split `scheme://rest` remainder into host (up to the first `/`) and path
(the remainder including the `/`), as `urlparse` does for simple URLs. -/
def splitHostPath (scheme : String) (rest : List Char) : Url :=
  let h := rest.takeWhile (fun c => c ≠ '/')
  let p := rest.dropWhile (fun c => c ≠ '/')
  ⟨scheme, String.mk h, String.mk p⟩

/-- Parse an absolute `http`/`https` URL string. -/
def parseAbs (s : String) : Option Url :=
  if strBeginsWith "https://" s then some (splitHostPath "https" (s.toList.drop 8))
  else if strBeginsWith "http://" s then some (splitHostPath "http" (s.toList.drop 7))
  else none

/-- Directory part of a path: everything up to and including the last `/`
(empty if the path has no `/`). -/
def dirOf (p : List Char) : List Char := ((p.reverse.dropWhile (fun c => c ≠ '/')).reverse)

/-- Modelled from the spec (§4.3, `web_scraper.py` not under src/): resolve an
`href`/`src` reference against a base URL.  Fragment-only references are
discarded; absolute, protocol-relative, root-relative and relative references
are handled distinctly. -/
def resolveRef (base : Url) (ref : String) : Option Url :=
  if strBeginsWith "#" ref then none
  else if strBeginsWith "https://" ref || strBeginsWith "http://" ref then parseAbs ref
  else if strBeginsWith "//" ref then parseAbs (base.scheme ++ ":" ++ ref)
  else if strBeginsWith "/" ref then some ⟨base.scheme, base.host, ref⟩
  else if ref = "" then none
  else
    let d := dirOf base.path.toList
    some ⟨base.scheme, base.host, String.mk (if d = [] then '/' :: ref.toList else d ++ ref.toList)⟩

/-- Modelled from the spec (§4.3): the known social-platform domain list, as in
the sample documents of `src/demo.py`. -/
def socialPlatforms : List (String × String) :=
  [("twitter.com", "twitter"), ("facebook.com", "facebook"),
   ("instagram.com", "instagram"), ("linkedin.com", "linkedin")]

def strEndsWith (suf s : String) : Bool := leadsWith suf.toList.reverse s.toList.reverse

def socialPlatform (host : String) : Option String :=
  (socialPlatforms.find? (fun pd => host = pd.1 || strEndsWith ("." ++ pd.1) host)).map (fun pd => pd.2)

/-! ## Contact scanning (emails and phone numbers) -/

def isEmailChar (c : Char) : Bool :=
  c.isAlpha || c.isDigit || c = '.' || c = '_' || c = '%' || c = '+' || c = '-'

/-- Split a character stream into maximal runs of email-admissible characters
(including `@`); separators are dropped. -/
def emailTokensAux : List Char → List Char → List (List Char)
  | acc, [] => if acc = [] then [] else [acc.reverse]
  | acc, c :: cs =>
    if isEmailChar c || c = '@' then emailTokensAux (c :: acc) cs
    else if acc = [] then emailTokensAux [] cs
    else acc.reverse :: emailTokensAux [] cs

/-- A token is a well-formed address when it has exactly one `@`, a nonempty
local part, and a domain that contains an inner dot. -/
def isValidEmail (t : List Char) : Bool :=
  let lhs := t.takeWhile (fun c => c ≠ '@')
  let rest := t.dropWhile (fun c => c ≠ '@')
  match rest with
  | '@' :: domain =>
    (!lhs.isEmpty) && (!domain.contains '@') && domain.contains '.' &&
    (!leadsWith ['.'] domain) && (!leadsWith ['.'] domain.reverse)
  | _ => false

/-- Modelled from the spec (§4.3): regular-expression-style email scan of a
text fragment. -/
def findEmails (s : String) : List String :=
  ((emailTokensAux [] s.toList).filter isValidEmail).map String.mk

def isSepChar (c : Char) : Bool := c = ' ' || c = '.' || c = '-'

def takeDigitsN : Nat → List Char → Option (List Char × List Char)
  | 0, cs => some ([], cs)
  | _ + 1, [] => none
  | n + 1, c :: cs =>
    if c.isDigit then (takeDigitsN n cs).map (fun dr => (c :: dr.1, dr.2)) else none

/-- Match a phone number at the head of the stream: optional `(`, three
digits, optional `)`, optional separator, three digits, optional separator,
four digits, not immediately followed by a further digit.  Tolerates the
common separators space, dot and hyphen.  Returns the matched characters and
the remainder. -/
def matchPhone (cs : List Char) : Option (List Char × List Char) :=
  let st1 : List Char × List Char :=
    match cs with | '(' :: r => (['('], r) | _ => ([], cs)
  match takeDigitsN 3 st1.2 with
  | none => none
  | some d1 =>
    let st2 : List Char × List Char :=
      match d1.2 with | ')' :: r => ([')'], r) | _ => ([], d1.2)
    let st3 : List Char × List Char :=
      match st2.2 with
      | c :: r => if isSepChar c then ([c], r) else ([], st2.2)
      | [] => ([], st2.2)
    match takeDigitsN 3 st3.2 with
    | none => none
    | some d2 =>
      let st4 : List Char × List Char :=
        match d2.2 with
        | c :: r => if isSepChar c then ([c], r) else ([], d2.2)
        | [] => ([], d2.2)
      match takeDigitsN 4 st4.2 with
      | none => none
      | some d3 =>
        match d3.2 with
        | c :: _ =>
          if c.isDigit then none
          else some (st1.1 ++ d1.1 ++ st2.1 ++ st3.1 ++ d2.1 ++ st4.1 ++ d3.1, d3.2)
        | [] => some (st1.1 ++ d1.1 ++ st2.1 ++ st3.1 ++ d2.1 ++ st4.1 ++ d3.1, d3.2)

/-- Left-to-right scan with consumption, as `re.findall` does: after a match
the scan resumes past the matched region.  Fuel is the stream length. -/
def scanPhonesFuel : Nat → List Char → List String
  | 0, _ => []
  | _ + 1, [] => []
  | f + 1, c :: cs =>
    match matchPhone (c :: cs) with
    | some mr => String.mk mr.1 :: scanPhonesFuel f mr.2
    | none => scanPhonesFuel f cs

/-- Modelled from the spec (§4.3): phone-pattern scan of a text fragment. -/
def findPhones (s : String) : List String := scanPhonesFuel (s.toList.length + 1) s.toList

/-! ## Document trees and the Fact Extractor -/

/-- A node of the parsed document tree as the Fact Extractor consumes it:
elements carry their tag and attributes, text nodes their text.  Extraction
queries elements by tag and attribute only, so the tree is flattened to the
node list in document order; nesting carries no extra information for it. -/
inductive Node where
  | element (tag : String) (attrs : List (String × String)) : Node
  | text (s : String) : Node
deriving DecidableEq, Repr

def getAttr (name : String) (attrs : List (String × String)) : Option String :=
  (attrs.find? (fun kv => kv.1 = name)).map (fun kv => kv.2)

/-- The typed findings produced by the Fact Extractor and accumulated by the
Result Aggregator.  Contact findings and social links are deduplicated with
first-seen order; per-kind resource lists are kept verbatim. -/
structure Findings where
  links : List String
  images : List String
  css_files : List String
  js_files : List String
  emails : List String
  phones : List String
  social : List (String × String)
deriving DecidableEq, Repr

def emptyFindings : Findings := ⟨[], [], [], [], [], [], []⟩

def insertUnique {α : Type} [DecidableEq α] (xs : List α) (x : α) : List α :=
  if x ∈ xs then xs else xs ++ [x]

def insertAllUnique {α : Type} [DecidableEq α] (xs : List α) (ys : List α) : List α :=
  ys.foldl insertUnique xs

/-- Modelled from the spec (§4.3, `web_scraper.py` not under src/): process one
node.  Anchors become link/social findings, with `mailto:`/`tel:` references
routed to the contact scanners; `img`, `link[rel=stylesheet]` and
`script[src]` become resource findings; text nodes are scanned for emails and
phones. -/
def extractNode (base : Url) (f : Findings) (n : Node) : Findings :=
  match n with
  | .text s =>
    { f with emails := insertAllUnique f.emails (findEmails s),
             phones := insertAllUnique f.phones (findPhones s) }
  | .element tag attrs =>
    if tag = "a" then
      match getAttr "href" attrs with
      | none => f
      | some h =>
        if strBeginsWith "mailto:" h then
          { f with emails := insertAllUnique f.emails (findEmails (strDropN 7 h)) }
        else if strBeginsWith "tel:" h then
          { f with phones := insertAllUnique f.phones (findPhones (strDropN 4 h)) }
        else
          match resolveRef base h with
          | none => f
          | some u =>
            match socialPlatform u.host with
            | some p => { f with social := insertUnique f.social (p, renderUrl u) }
            | none => { f with links := f.links ++ [renderUrl u] }
    else if tag = "img" then
      match getAttr "src" attrs with
      | none => f
      | some s =>
        match resolveRef base s with
        | none => f
        | some u => { f with images := f.images ++ [renderUrl u] }
    else if tag = "link" then
      if getAttr "rel" attrs = some "stylesheet" then
        match getAttr "href" attrs with
        | none => f
        | some h =>
          match resolveRef base h with
          | none => f
          | some u => { f with css_files := f.css_files ++ [renderUrl u] }
      else f
    else if tag = "script" then
      match getAttr "src" attrs with
      | none => f
      | some s =>
        match resolveRef base s with
        | none => f
        | some u => { f with js_files := f.js_files ++ [renderUrl u] }
    else f

/-- Modelled from the spec (§4.3): `extract(DocumentTree, baseURL) → findings`.
Pure and deterministic in the tree and base URL. -/
def extract (doc : List Node) (base : Url) : Findings :=
  doc.foldl (extractNode base) emptyFindings


/-! ## Engine configuration, Override Resolver and crawl state -/

/-- A fetched or substituted document: the raw markup (persisted verbatim by
the Mirror Writer) paired with its parsed tree (consumed by the Extractor).
The Markup Parser is an external collaborator; pairing raw text with its tree
keeps the verbatim content and the parse of that same content together. -/
structure Page where
  raw : String
  doc : List Node
deriving DecidableEq, Repr

/-- Modelled from the spec (§6, `web_scraper.py` not under src/): constructor
configuration of the Engine.  `index_override = some (.ok p)` is a configured,
readable override file with content `p`; `some (.error ())` a configured but
unreadable one; `none` no override. -/
structure Config where
  max_depth : Nat
  mirror_mode : Bool
  index_override : Option (Except Unit Page)
  process_js : Bool

/-- The Override Resolver's decision for one request. -/
inductive SourceDecision where
  | override (file : Except Unit Page) : SourceDecision
  | fetcher : SourceDecision
deriving Repr

/-- Modelled from the spec (§4.4, `web_scraper.py` not under src/): the
Override Resolver substitutes the configured override file exactly when the
request URL's path component is the root; otherwise it delegates to the
Fetcher.  The root test is the embedded check of `src/diagnose_override.py`
line 28. -/
def sourceDecision (cfg : Config) (u : Url) : SourceDecision :=
  match cfg.index_override with
  | some f => if is_root u.path then .override f else .fetcher
  | none => .fetcher

/-- Modelled from the spec (§4.4, §7): obtain the markup for a URL.  An
unreadable configured override is a FileError; otherwise the override content
is returned for root paths, and every other request goes to the Fetcher. -/
def getMarkup (cfg : Config) (fetch : Url → Except String Page) (u : Url) :
    Except String Page :=
  match sourceDecision cfg u with
  | .override (.ok p) => .ok p
  | .override (.error _) => .error "FileError: override file unreadable"
  | .fetcher => fetch u

/-- Modelled from the spec (§4.6): local mirror path of a page URL, with an
`index.html`-style default for root/collection paths. -/
def localPathFor (u : Url) : String :=
  if is_root u.path then "index.html"
  else if strEndsWith "/" u.path then strDropN 1 u.path ++ "index.html"
  else strDropN 1 u.path

/-- Modelled from the spec (§3, `CrawlState`): visited table of PageRecords
(URL with depth-at-discovery), ordered frontier of (URL, depth) pairs,
per-page errors, accumulated findings, and pages persisted by the Mirror
Writer as (local path, raw content). -/
structure CrawlState where
  visited : List (Url × Nat)
  frontier : List (Url × Nat)
  errors : List (String × String)
  findings : Findings
  saved_pages : List (String × String)
deriving Repr

def visitedUrls (st : CrawlState) : List Url := st.visited.map (fun p => p.1)

def frontierUrls (st : CrawlState) : List Url := st.frontier.map (fun p => p.1)

/-- Modelled from the spec (§4.7, Result Aggregator `merge`): concatenate
per-kind resource lists, deduplicate contact findings and social links. -/
def mergeFindings (a b : Findings) : Findings :=
  ⟨a.links ++ b.links, a.images ++ b.images, a.css_files ++ b.css_files,
   a.js_files ++ b.js_files, insertAllUnique a.emails b.emails,
   insertAllUnique a.phones b.phones, insertAllUnique a.social b.social⟩

/-- Modelled from the spec (§4.5): "same-scope" membership — the link's host
matches the seed's registrable domain (modelled as host equality). -/
def sameScope (seedHost : String) (u : Url) : Bool := u.host = seedHost

/-- Modelled from the spec (§4.5): enqueue one discovered link at depth
`d + 1` if it is same-scope, within the depth budget, not visited and not
already queued. -/
def enqueueOne (cfg : Config) (seedHost : String) (d : Nat) (st : CrawlState)
    (lstr : String) : CrawlState :=
  match parseAbs lstr with
  | none => st
  | some u =>
    if sameScope seedHost u = true ∧ d + 1 ≤ cfg.max_depth ∧
        u ∉ visitedUrls st ∧ u ∉ frontierUrls st then
      { st with frontier := st.frontier ++ [(u, d + 1)] }
    else st

def enqueueLinks (cfg : Config) (seedHost : String) (d : Nat) (st : CrawlState)
    (ls : List String) : CrawlState :=
  ls.foldl (enqueueOne cfg seedHost d) st

/-- Modelled from the spec (§4.5, `web_scraper.py` not under src/): one
traversal step.  Dequeue; skip if visited; mark visited; obtain markup via the
Override Resolver / Fetcher; on failure record the error and continue; on
success extract findings, persist when mirroring, and enqueue in-budget
same-scope links. -/
def crawlStep (cfg : Config) (fetch : Url → Except String Page)
    (seedHost : String) (st : CrawlState) : CrawlState :=
  match st.frontier with
  | [] => st
  | p :: rest =>
    if p.1 ∈ visitedUrls st then { st with frontier := rest }
    else
      let st1 : CrawlState :=
        { st with visited := st.visited ++ [p], frontier := rest }
      match getMarkup cfg fetch p.1 with
      | .error e => { st1 with errors := st1.errors ++ [(renderUrl p.1, e)] }
      | .ok page =>
        let pf := extract page.doc p.1
        let st2 : CrawlState :=
          { st1 with
            findings := mergeFindings st1.findings pf,
            saved_pages :=
              if cfg.mirror_mode then st1.saved_pages ++ [(localPathFor p.1, page.raw)]
              else st1.saved_pages }
        enqueueLinks cfg seedHost p.2 st2 pf.links

/-- Modelled from the spec (§4.5): the traversal loop, indexed by fuel (an
upper bound on the number of steps); the loop stops early when the frontier
empties. -/
def crawl (cfg : Config) (fetch : Url → Except String Page) (seedHost : String) :
    Nat → CrawlState → CrawlState
  | 0, st => st
  | f + 1, st =>
    match st.frontier with
    | [] => st
    | _ :: _ => crawl cfg fetch seedHost f (crawlStep cfg fetch seedHost st)

def initState (seed : Url) : CrawlState :=
  ⟨[], [(seed, 0)], [], emptyFindings, []⟩

/-- Modelled from the spec (§3, `ScrapeResult`): the terminal aggregate. -/
structure ScrapeResult where
  url : String
  pages_visited : List String
  links : List String
  images : List String
  css_files : List String
  js_files : List String
  emails : List String
  phones : List String
  social : List (String × String)
  errors : List (String × String)
  saved_pages : List (String × String)
  timestamp : Nat
deriving DecidableEq, Repr

def finalize (seed : Url) (st : CrawlState) (now : Nat) : ScrapeResult :=
  ⟨renderUrl seed, st.visited.map (fun p => renderUrl p.1), st.findings.links,
   st.findings.images, st.findings.css_files, st.findings.js_files,
   st.findings.emails, st.findings.phones, st.findings.social, st.errors,
   st.saved_pages, now⟩

/-- Modelled from the spec (§6): full depth-bounded traversal from a seed. -/
def scrape_website (fuel : Nat) (cfg : Config) (fetch : Url → Except String Page)
    (seed : Url) (now : Nat) : ScrapeResult :=
  finalize seed (crawl cfg fetch seed.host fuel (initState seed)) now

/-- Modelled from the spec (§6): single page, no traversal regardless of
`max_depth`. -/
def scrape_url (cfg : Config) (fetch : Url → Except String Page) (u : Url)
    (now : Nat) : ScrapeResult :=
  let st0 : CrawlState := ⟨[(u, 0)], [], [], emptyFindings, []⟩
  let st : CrawlState :=
    match getMarkup cfg fetch u with
    | .error e => { st0 with errors := [(renderUrl u, e)] }
    | .ok page =>
      { st0 with
        findings := extract page.doc u,
        saved_pages := if cfg.mirror_mode then [(localPathFor u, page.raw)] else [] }
  finalize u st now

/-- Base URL under which a local file is parsed. -/
def fileBase : Url := ⟨"file", "", "/"⟩

/-- Modelled from the spec (§6): parse local markup as if it were the seed
page; no network.  `now` is the wall-clock timestamp recorded in the result. -/
def parse_html_file (p : Page) (now : Nat) : ScrapeResult :=
  let f := extract p.doc fileBase
  ⟨renderUrl fileBase, [renderUrl fileBase], f.links, f.images, f.css_files,
   f.js_files, f.emails, f.phones, f.social, [], [], now⟩

/-- Everything in a ScrapeResult except the timestamp. -/
def ScrapeResult.content (r : ScrapeResult) :
    String × List String × List String × List String × List String ×
      List String × List String × List String × List (String × String) ×
      List (String × String) × List (String × String) :=
  (r.url, r.pages_visited, r.links, r.images, r.css_files, r.js_files,
   r.emails, r.phones, r.social, r.errors, r.saved_pages)

/-! ## The Python-facing dictionary view and the demo serialization -/

/-- A Python value as the demo scripts see results: strings, lists, dicts and
`set` values.  A `.pyset` carries the elements in the iteration order the
interpreter happens to produce in one run; two runs may enumerate the same
set in different orders. -/
inductive PyValue where
  | str (s : String) : PyValue
  | list (xs : List PyValue) : PyValue
  | dict (kvs : List (String × PyValue)) : PyValue
  | pyset (elems : List String) : PyValue
deriving Repr

def dictLookup (k : String) (kvs : List (String × PyValue)) : Option PyValue :=
  (kvs.find? (fun kv => kv.1 = k)).map (fun kv => kv.2)

/-- The dictionary shape of a ScrapeResult as the demo scripts index it:
`results['resources']['css_files']` etc. (`src/example_corrected_paths.py`
lines 112-114), with contact findings as set values at the top level. -/
def resultView (r : ScrapeResult) : List (String × PyValue) :=
  [("url", .str r.url),
   ("pages_visited", .list (r.pages_visited.map .str)),
   ("links", .list (r.links.map .str)),
   ("resources", .dict
      [("css_files", .list (r.css_files.map .str)),
       ("js_files", .list (r.js_files.map .str)),
       ("images", .list (r.images.map .str))]),
   ("emails", .pyset r.emails),
   ("phones", .pyset r.phones)]

/-- Embedded from `src/demo.py` lines 112-120: the JSON-serialization loop of
`demo_mirror_functionality`, which replaces each top-level set value by
`list(value)` — the list of the set's elements in the iteration order of this
run — and leaves every other value unchanged. -/
def demoJsonResults (results : List (String × PyValue)) : List (String × PyValue) :=
  results.map (fun kv =>
    match kv.2 with
    | .pyset es => (kv.1, .list (es.map .str))
    | v => (kv.1, v))

/-! ## Concrete scenario data -/

/-- The real target whose root page is overridden in
`src/example_corrected_paths.py` (`scrape_url('https://example.com/')`). -/
def targetRoot : Url := ⟨"https", "example.com", "/"⟩

/-- The parsed tree of the corrected override file written by
`create_corrected_index` in `src/example_corrected_paths.py`: two stylesheets,
four external scripts, one inline script, two images and three navigation
anchors, all with root-relative references. -/
def overrideDoc : List Node :=
  [.element "link" [("rel", "stylesheet"), ("href", "/assets/css/main.css")],
   .element "link" [("rel", "stylesheet"), ("href", "/static/theme.css")],
   .element "script" [("src", "/js/app.js")],
   .element "script" [("src", "/lib/utils.js")],
   .element "script" [("src", "/api/client.js")],
   .element "script" [("src", "/components/ui.js")],
   .element "img" [("src", "/images/logo.png")],
   .element "img" [("src", "/assets/banner.jpg")],
   .element "a" [("href", "/dashboard")],
   .element "a" [("href", "/profile")],
   .element "a" [("href", "/settings")],
   .element "script" []]

/-- The scraper configuration used by `demonstrate_corrected_paths` in
`src/example_corrected_paths.py`: `max_depth=0`, `mirror_mode=True`, the
corrected file as `index_override` (raw content `raw`), `process_js=True`. -/
def cfgOverride (raw : String) : Config :=
  ⟨0, true, some (.ok ⟨raw, overrideDoc⟩), true⟩

/-- The sample document of the extraction scenario: three anchors (two
external links and one `mailto:demo@example.com`), two images, one
stylesheet, two scripts, and the text `call (555) 123-4567`, with the
references of `create_sample_html` in `src/demo.py`. -/
def sampleDoc : List Node :=
  [.element "link" [("rel", "stylesheet"), ("href", "styles.css")],
   .element "a" [("href", "https://example.com")],
   .element "a" [("href", "https://github.com")],
   .element "a" [("href", "mailto:demo@example.com")],
   .text "call (555) 123-4567",
   .element "img" [("src", "sample1.jpg")],
   .element "img" [("src", "https://via.placeholder.com/300x200")],
   .element "script" [("src", "script.js")],
   .element "script" [("src", "https://cdn.example.com/analytics.js")]]

/-- A configuration with a readable override file, for concrete evaluation. -/
def cfgWithOverride : Config := ⟨1, false, some (.ok ⟨"override markup", []⟩), false⟩

/-- A configuration with no override and no mirroring, for concrete
evaluation. -/
def cfgPlain : Config := ⟨2, false, none, false⟩

/-- A configuration with depth bound zero, no override, no mirroring. -/
def cfgDepth0 : Config := ⟨0, false, none, false⟩

/-- A Fetcher that times out on every request. -/
def fetchFail : Url → Except String Page := fun _ => .error "timeout"

/-- A Fetcher returning an empty page for every request. -/
def fetchEmpty : Url → Except String Page := fun _ => .ok ⟨"", []⟩

def seedW : Url := ⟨"https", "example.com", "/"⟩

/-- Depth-boundedness of a crawl state (spec §3 invariant and §8). -/
def depthBounded (m : Nat) (st : CrawlState) : Prop :=
  (∀ pr ∈ st.visited, pr.2 ≤ m) ∧ ∀ pr ∈ st.frontier, pr.2 ≤ m

/-- Uniqueness invariant of a crawl state: visited URLs are pairwise distinct,
frontier URLs are pairwise distinct, and no frontier URL is already visited
(spec §3 invariant). -/
def visitedOnce (st : CrawlState) : Prop :=
  (visitedUrls st).Nodup ∧ (frontierUrls st).Nodup ∧
    ∀ u ∈ frontierUrls st, u ∉ visitedUrls st

/-! ## Theorems -/

/-- C1: the Override Resolver substitutes override content only when the
request URL's path component is the root (`""` or `"/"`); for every URL with
any other path the request goes to the Fetcher and the override is ignored. -/
theorem override_only_for_root_path (cfg : Config) (u : Url) :
    (is_root u.path = false → sourceDecision cfg u = .fetcher) ∧
    ∀ f, cfg.index_override = some f → is_root u.path = true →
      sourceDecision cfg u = .override f := by
  constructor
  · intro hnr
    unfold sourceDecision
    cases cfg.index_override with
    | none => rfl
    | some f => simp [hnr]
  · intro f hov hr
    unfold sourceDecision
    rw [hov]
    simp [hr]

/-- Witness for C1: with a configured override, `/about` goes to the Fetcher
and the root path is substituted. -/
theorem override_only_for_root_path_witness :
    sourceDecision cfgWithOverride ⟨"https", "example.com", "/about"⟩ = .fetcher ∧
    sourceDecision cfgWithOverride ⟨"https", "example.com", "/"⟩ =
      .override (.ok ⟨"override markup", []⟩) :=
  ⟨(override_only_for_root_path cfgWithOverride ⟨"https", "example.com", "/about"⟩).1 rfl,
   (override_only_for_root_path cfgWithOverride ⟨"https", "example.com", "/"⟩).2
     (.ok ⟨"override markup", []⟩) rfl rfl⟩

/-- C6: a document containing 3 anchors (two external links and one
`mailto:demo@example.com`), 2 images, 1 stylesheet, 2 scripts and the text
`call (555) 123-4567` yields exactly 2 link findings, 1 email
(`demo@example.com`), 2 image findings, 1 stylesheet finding, 2 script
findings and 1 phone finding (`(555) 123-4567`). -/
theorem sample_document_extraction_counts :
    (extract sampleDoc fileBase).links.length = 2 ∧
    (extract sampleDoc fileBase).emails = ["demo@example.com"] ∧
    (extract sampleDoc fileBase).images.length = 2 ∧
    (extract sampleDoc fileBase).css_files.length = 1 ∧
    (extract sampleDoc fileBase).js_files.length = 2 ∧
    (extract sampleDoc fileBase).phones = ["(555) 123-4567"] := by decide

/-- C7 (code bug evidence): the serialization loop of `demo_mirror_functionality`
(`src/demo.py` lines 112-120) emits a set-typed field as `list(value)` in the
set's per-run iteration order; two runs enumerating the same email set in
different orders produce different serialized output, so the output is not
stable across runs. -/
theorem demo_set_serialization_not_stable :
    (["a@x.com", "b@y.com"] : List String).Perm ["b@y.com", "a@x.com"] ∧
    demoJsonResults [("emails", .pyset ["a@x.com", "b@y.com"])] ≠
      demoJsonResults [("emails", .pyset ["b@y.com", "a@x.com"])] := by
  constructor
  · decide
  · intro h
    simp [demoJsonResults] at h

/-- C9: `parse_html_file` run twice on the same unchanged file yields
ScrapeResults with identical content, modulo the timestamp field. -/
theorem parse_html_file_idempotent (p : Page) (t1 t2 : Nat) :
    (parse_html_file p t1).content = (parse_html_file p t2).content := rfl

/-- C10: every ScrapeResult returned by `scrape_website` or `scrape_url`, seen
as the dictionary the demo scripts index, has a `resources` entry that is a
dictionary with keys `css_files`, `js_files` and `images`, each bound to a
list. -/
theorem scrape_result_resources_shape (fuel : Nat) (cfg : Config)
    (fetch : Url → Except String Page) (u : Url) (now : Nat) :
    (∃ a b c, dictLookup "resources" (resultView (scrape_website fuel cfg fetch u now)) =
      some (.dict [("css_files", .list a), ("js_files", .list b), ("images", .list c)])) ∧
    ∃ a b c, dictLookup "resources" (resultView (scrape_url cfg fetch u now)) =
      some (.dict [("css_files", .list a), ("js_files", .list b), ("images", .list c)]) :=
  ⟨⟨_, _, _, rfl⟩, ⟨_, _, _, rfl⟩⟩

/-- C2: with a configured override file, scraping `https://example.com/`
saves the override file's content verbatim as the mirrored page and takes all
findings from the override markup, while references are resolved against the
real target URL `https://example.com` (not the override file's location):
every discovered resource URL lives on the target host. -/
theorem root_override_verbatim_and_real_base (raw : String)
    (fetch : Url → Except String Page) (now : Nat) :
    (scrape_website 2 (cfgOverride raw) fetch targetRoot now).saved_pages =
      [("index.html", raw)] ∧
    (scrape_website 2 (cfgOverride raw) fetch targetRoot now).css_files =
      ["https://example.com/assets/css/main.css", "https://example.com/static/theme.css"] ∧
    (scrape_website 2 (cfgOverride raw) fetch targetRoot now).js_files =
      ["https://example.com/js/app.js", "https://example.com/lib/utils.js",
       "https://example.com/api/client.js", "https://example.com/components/ui.js"] ∧
    (scrape_website 2 (cfgOverride raw) fetch targetRoot now).images =
      ["https://example.com/images/logo.png", "https://example.com/assets/banner.jpg"] :=
  ⟨rfl, rfl, rfl, rfl⟩

theorem enqueueOne_visited (cfg : Config) (hs : String) (d : Nat) (st : CrawlState) (l : String) :
    (enqueueOne cfg hs d st l).visited = st.visited := by
  unfold enqueueOne
  cases parseAbs l with
  | none => rfl
  | some u =>
    dsimp only
    split <;> rfl

theorem enqueueOne_errors (cfg : Config) (hs : String) (d : Nat) (st : CrawlState) (l : String) :
    (enqueueOne cfg hs d st l).errors = st.errors := by
  unfold enqueueOne
  cases parseAbs l with
  | none => rfl
  | some u =>
    dsimp only
    split <;> rfl

theorem enqueueLinks_errors (cfg : Config) (hs : String) (d : Nat) (ls : List String)
    (st : CrawlState) : (enqueueLinks cfg hs d st ls).errors = st.errors := by
  induction ls generalizing st with
  | nil => rfl
  | cons l ls ih =>
    show (List.foldl (enqueueOne cfg hs d) st (l :: ls)).errors = st.errors
    rw [List.foldl_cons]
    exact (ih (enqueueOne cfg hs d st l)).trans (enqueueOne_errors cfg hs d st l)

theorem enqueueOne_depth_exceeded (cfg : Config) (hs : String) (d : Nat) (st : CrawlState)
    (l : String) (hd : ¬ d + 1 ≤ cfg.max_depth) : enqueueOne cfg hs d st l = st := by
  unfold enqueueOne
  cases parseAbs l with
  | none => rfl
  | some u =>
    dsimp only
    rw [if_neg]
    intro hc
    exact hd hc.2.1

theorem enqueueLinks_depth_exceeded (cfg : Config) (hs : String) (d : Nat) (ls : List String)
    (st : CrawlState) (hd : ¬ d + 1 ≤ cfg.max_depth) : enqueueLinks cfg hs d st ls = st := by
  induction ls generalizing st with
  | nil => rfl
  | cons l ls ih =>
    show List.foldl (enqueueOne cfg hs d) st (l :: ls) = st
    rw [List.foldl_cons, enqueueOne_depth_exceeded cfg hs d st l hd]
    exact ih st

theorem foldl_inv {α β : Type} {P : β → Prop} (f : β → α → β)
    (hf : ∀ b a, P b → P (f b a)) :
    ∀ (l : List α) (b : β), P b → P (l.foldl f b) := by
  intro l
  induction l with
  | nil => intro b hb; exact hb
  | cons a l ih => intro b hb; exact ih (f b a) (hf b a hb)

theorem crawl_pres_inv {P : CrawlState → Prop} (cfg : Config)
    (fetch : Url → Except String Page) (hs : String)
    (hstep : ∀ st, P st → P (crawlStep cfg fetch hs st)) :
    ∀ (f : Nat) (st : CrawlState), P st → P (crawl cfg fetch hs f st) := by
  intro f
  induction f with
  | zero => intro st h; exact h
  | succ f ih =>
    intro st h
    unfold crawl
    cases st.frontier with
    | nil => exact h
    | cons a l => exact ih _ (hstep st h)

theorem crawl_empty_fix (cfg : Config) (fetch : Url → Except String Page) (hs : String)
    (f : Nat) (st : CrawlState) (he : st.frontier = []) :
    crawl cfg fetch hs f st = st := by
  cases f with
  | zero => rfl
  | succ f =>
    unfold crawl
    rw [he]

theorem crawl_succ_of_frontier (cfg : Config) (fetch : Url → Except String Page) (hs : String)
    (f : Nat) (st : CrawlState) (p : Url × Nat) (rest : List (Url × Nat))
    (hfr : st.frontier = p :: rest) :
    crawl cfg fetch hs (f + 1) st = crawl cfg fetch hs f (crawlStep cfg fetch hs st) := by
  conv_lhs => unfold crawl
  rw [hfr]

theorem enqueueOne_depthBounded (cfg : Config) (hs : String) (d : Nat) (st : CrawlState)
    (l : String) (hb : depthBounded cfg.max_depth st) :
    depthBounded cfg.max_depth (enqueueOne cfg hs d st l) := by
  unfold enqueueOne
  cases parseAbs l with
  | none => exact hb
  | some u =>
    dsimp only
    split
    next hc =>
      refine ⟨hb.1, ?_⟩
      intro pr hpr
      rcases List.mem_append.mp hpr with hin | hin
      · exact hb.2 pr hin
      · simp only [List.mem_singleton] at hin
        subst hin
        exact hc.2.1
    next => exact hb

theorem enqueueLinks_depthBounded (cfg : Config) (hs : String) (d : Nat) (ls : List String)
    (st : CrawlState) (hb : depthBounded cfg.max_depth st) :
    depthBounded cfg.max_depth (enqueueLinks cfg hs d st ls) :=
  foldl_inv (enqueueOne cfg hs d) (fun b a h => enqueueOne_depthBounded cfg hs d b a h) ls st hb

theorem crawlStep_depthBounded (cfg : Config) (fetch : Url → Except String Page) (hs : String)
    (st : CrawlState) (hb : depthBounded cfg.max_depth st) :
    depthBounded cfg.max_depth (crawlStep cfg fetch hs st) := by
  unfold crawlStep
  cases hfr : st.frontier with
  | nil => exact hb
  | cons p tl =>
    have hple : p.2 ≤ cfg.max_depth := hb.2 p (by rw [hfr]; exact List.mem_cons_self p tl)
    have htl : ∀ pr ∈ tl, pr.2 ≤ cfg.max_depth := fun pr hpr =>
      hb.2 pr (by rw [hfr]; exact List.mem_cons_of_mem p hpr)
    dsimp only
    split
    next => exact ⟨hb.1, htl⟩
    next =>
      have hv1 : ∀ pr ∈ st.visited ++ [p], pr.2 ≤ cfg.max_depth := by
        intro pr hpr
        rcases List.mem_append.mp hpr with hin | hin
        · exact hb.1 pr hin
        · simp only [List.mem_singleton] at hin
          subst hin
          exact hple
      cases hm : getMarkup cfg fetch p.1 with
      | error e => exact ⟨hv1, htl⟩
      | ok page => exact enqueueLinks_depthBounded cfg hs p.2 _ _ ⟨hv1, htl⟩

theorem enqueueOne_visitedOnce (cfg : Config) (hs : String) (d : Nat) (st : CrawlState)
    (l : String) (hv : visitedOnce st) : visitedOnce (enqueueOne cfg hs d st l) := by
  unfold enqueueOne
  cases parseAbs l with
  | none => exact hv
  | some u =>
    dsimp only
    split
    next hc =>
      obtain ⟨h1, h2, h3⟩ := hv
      refine ⟨h1, ?_, ?_⟩
      · show (List.map Prod.fst (st.frontier ++ [(u, d + 1)])).Nodup
        rw [List.map_append, List.nodup_append]
        refine ⟨h2, List.nodup_singleton u, ?_⟩
        intro a ha hb
        simp only [List.map_singleton, List.mem_singleton] at hb
        subst hb
        exact hc.2.2.2 ha
      · intro v hvf
        show v ∉ visitedUrls st
        have : v ∈ List.map Prod.fst (st.frontier ++ [(u, d + 1)]) := hvf
        rw [List.map_append] at this
        rcases List.mem_append.mp this with hin | hin
        · exact h3 v hin
        · simp only [List.map_singleton, List.mem_singleton] at hin
          subst hin
          exact hc.2.2.1
    next => exact hv

theorem enqueueLinks_visitedOnce (cfg : Config) (hs : String) (d : Nat) (ls : List String)
    (st : CrawlState) (hv : visitedOnce st) : visitedOnce (enqueueLinks cfg hs d st ls) :=
  foldl_inv (enqueueOne cfg hs d) (fun b a h => enqueueOne_visitedOnce cfg hs d b a h) ls st hv

theorem crawlStep_visitedOnce (cfg : Config) (fetch : Url → Except String Page) (hs : String)
    (st : CrawlState) (hv : visitedOnce st) : visitedOnce (crawlStep cfg fetch hs st) := by
  obtain ⟨h1, h2, h3⟩ := hv
  unfold crawlStep
  cases hfr : st.frontier with
  | nil => exact ⟨h1, h2, h3⟩
  | cons p tl =>
    have hfu : frontierUrls st = p.1 :: List.map Prod.fst tl := by
      show List.map Prod.fst st.frontier = _
      rw [hfr, List.map_cons]
    have h2c : (List.map Prod.fst tl).Nodup := by
      rw [hfu] at h2
      exact h2.of_cons
    have hhd : p.1 ∉ List.map Prod.fst tl := by
      rw [hfu] at h2
      exact (List.nodup_cons.mp h2).1
    have h3tl : ∀ v ∈ List.map Prod.fst tl, v ∉ visitedUrls st := fun v hin =>
      h3 v (by rw [hfu]; exact List.mem_cons_of_mem p.1 hin)
    dsimp only
    split
    next => exact ⟨h1, h2c, h3tl⟩
    next hnv =>
      have hinv1 : visitedOnce { st with visited := st.visited ++ [p], frontier := tl } := by
        refine ⟨?_, h2c, ?_⟩
        · show (List.map Prod.fst (st.visited ++ [p])).Nodup
          rw [List.map_append, List.nodup_append]
          refine ⟨h1, List.nodup_singleton p.1, ?_⟩
          intro a ha hb
          simp only [List.map_singleton, List.mem_singleton] at hb
          subst hb
          exact hnv ha
        · intro v hvf
          show v ∉ List.map Prod.fst (st.visited ++ [p])
          rw [List.map_append]
          intro hmem
          rcases List.mem_append.mp hmem with hin | hin
          · exact h3tl v hvf hin
          · simp only [List.map_singleton, List.mem_singleton] at hin
            subst hin
            exact hhd hvf
      cases hm : getMarkup cfg fetch p.1 with
      | error e => exact ⟨hinv1.1, hinv1.2.1, hinv1.2.2⟩
      | ok page => exact enqueueLinks_visitedOnce cfg hs p.2 _ _ ⟨hinv1.1, hinv1.2.1, hinv1.2.2⟩

theorem initState_depthBounded (m : Nat) (seed : Url) : depthBounded m (initState seed) := by
  constructor
  · intro pr hpr
    simp [initState] at hpr
  · intro pr hpr
    simp only [initState, List.mem_singleton] at hpr
    subst hpr
    exact Nat.zero_le m

theorem initState_visitedOnce (seed : Url) : visitedOnce (initState seed) := by
  refine ⟨List.nodup_nil, ?_, ?_⟩
  · show (List.map Prod.fst [(seed, 0)]).Nodup
    simp
  · intro u hu
    show u ∉ ([] : List Url)
    simp

theorem crawlStep_errors_mono (cfg : Config) (fetch : Url → Except String Page) (hs : String)
    (st : CrawlState) (x : String × String) (hx : x ∈ st.errors) :
    x ∈ (crawlStep cfg fetch hs st).errors := by
  unfold crawlStep
  cases hfr : st.frontier with
  | nil => exact hx
  | cons p tl =>
    dsimp only
    split
    next => exact hx
    next =>
      cases hm : getMarkup cfg fetch p.1 with
      | error e => exact List.mem_append.mpr (.inl hx)
      | ok page =>
        rw [enqueueLinks_errors]
        exact hx

theorem crawl_errors_mono (cfg : Config) (fetch : Url → Except String Page) (hs : String) :
    ∀ (f : Nat) (st : CrawlState) (x : String × String),
      x ∈ st.errors → x ∈ (crawl cfg fetch hs f st).errors := by
  intro f
  induction f with
  | zero => intro st x hx; exact hx
  | succ f ih =>
    intro st x hx
    unfold crawl
    cases st.frontier with
    | nil => exact hx
    | cons a l => exact ih _ x (crawlStep_errors_mono cfg fetch hs st x hx)

theorem crawlStep_failure (cfg : Config) (fetch : Url → Except String Page) (hs : String)
    (st : CrawlState) (p : Url × Nat) (rest : List (Url × Nat)) (e : String)
    (hfr : st.frontier = p :: rest) (hv : p.1 ∉ visitedUrls st)
    (he : getMarkup cfg fetch p.1 = .error e) :
    crawlStep cfg fetch hs st =
      { st with visited := st.visited ++ [p], frontier := rest,
                errors := st.errors ++ [(renderUrl p.1, e)] } := by
  unfold crawlStep
  rw [hfr]
  dsimp only
  rw [if_neg hv, he]

theorem crawlStep_seed_depth0 (cfg : Config) (fetch : Url → Except String Page) (hs : String)
    (seed : Url) (h0 : cfg.max_depth = 0) :
    (crawlStep cfg fetch hs (initState seed)).frontier = [] ∧
    (crawlStep cfg fetch hs (initState seed)).visited = [(seed, 0)] := by
  unfold crawlStep initState
  dsimp only
  rw [if_neg (by simp [visitedUrls])]
  cases hm : getMarkup cfg fetch seed with
  | error e => exact ⟨rfl, rfl⟩
  | ok page =>
    dsimp only
    rw [enqueueLinks_depth_exceeded cfg hs 0 _ _ (by rw [h0]; decide)]
    exact ⟨rfl, rfl⟩

/-- C3: a crawl started by `scrape_website` with `max_depth = 0` visits
exactly one URL, the seed, and traverses no discovered link. -/
theorem max_depth_zero_visits_seed_only (f : Nat) (cfg : Config)
    (fetch : Url → Except String Page) (seed : Url) (now : Nat)
    (h0 : cfg.max_depth = 0) (hf : 1 ≤ f) :
    (scrape_website f cfg fetch seed now).pages_visited = [renderUrl seed] := by
  obtain ⟨g, rfl⟩ : ∃ g, f = g + 1 := ⟨f - 1, by omega⟩
  have hstep := crawlStep_seed_depth0 cfg fetch seed.host seed h0
  have hcr : crawl cfg fetch seed.host (g + 1) (initState seed) =
      crawlStep cfg fetch seed.host (initState seed) := by
    rw [crawl_succ_of_frontier cfg fetch seed.host g (initState seed) (seed, 0) [] rfl]
    exact crawl_empty_fix cfg fetch seed.host g _ hstep.1
  show (finalize seed (crawl cfg fetch seed.host (g + 1) (initState seed)) now).pages_visited =
    [renderUrl seed]
  rw [hcr]
  show (crawlStep cfg fetch seed.host (initState seed)).visited.map
    (fun p => renderUrl p.1) = [renderUrl seed]
  rw [hstep.2]
  rfl

/-- Witness for C3: a depth-0 crawl of `https://example.com/` against an
empty-page Fetcher visits exactly the seed. -/
theorem max_depth_zero_visits_seed_only_witness :
    cfgDepth0.max_depth = 0 ∧ 1 ≤ 1 ∧
    (scrape_website 1 cfgDepth0 fetchEmpty seedW 0).pages_visited = [renderUrl seedW] :=
  ⟨rfl, by decide, max_depth_zero_visits_seed_only 1 cfgDepth0 fetchEmpty seedW 0 rfl (by decide)⟩

/-- C4: at every step of a crawl (every fuel bound), every visited
PageRecord's recorded depth and every frontier entry's depth are at most the
configured `max_depth`. -/
theorem crawl_depth_bounded (cfg : Config) (fetch : Url → Except String Page)
    (seed : Url) (f : Nat) :
    (∀ pr ∈ (crawl cfg fetch seed.host f (initState seed)).visited, pr.2 ≤ cfg.max_depth) ∧
    ∀ pr ∈ (crawl cfg fetch seed.host f (initState seed)).frontier, pr.2 ≤ cfg.max_depth :=
  crawl_pres_inv cfg fetch seed.host
    (fun st hb => crawlStep_depthBounded cfg fetch seed.host st hb) f (initState seed)
    (initState_depthBounded cfg.max_depth seed)

/-- C5: in a single crawl no URL enters the visited table twice, and no
frontier entry is a URL that is already visited (an already-visited URL is
never re-enqueued). -/
theorem visited_once_per_crawl (cfg : Config) (fetch : Url → Except String Page)
    (seed : Url) (f : Nat) :
    (visitedUrls (crawl cfg fetch seed.host f (initState seed))).Nodup ∧
    ∀ u ∈ frontierUrls (crawl cfg fetch seed.host f (initState seed)),
      u ∉ visitedUrls (crawl cfg fetch seed.host f (initState seed)) :=
  have h := crawl_pres_inv cfg fetch seed.host
    (fun st hv => crawlStep_visitedOnce cfg fetch seed.host st hv) f (initState seed)
    (initState_visitedOnce seed)
  ⟨h.1, h.2.2⟩

/-- C8: a page whose markup acquisition fails does not abort the crawl: the
failure is recorded against that URL, the traversal continues as the crawl of
the remaining frontier, and the failure is enumerated in the final state's
errors. -/
theorem page_failure_recorded_crawl_continues (cfg : Config)
    (fetch : Url → Except String Page) (hs : String) (f : Nat) (st : CrawlState)
    (p : Url × Nat) (rest : List (Url × Nat)) (e : String)
    (hfr : st.frontier = p :: rest) (hv : p.1 ∉ visitedUrls st)
    (he : getMarkup cfg fetch p.1 = .error e) :
    crawl cfg fetch hs (f + 1) st =
      crawl cfg fetch hs f
        { st with visited := st.visited ++ [p], frontier := rest,
                  errors := st.errors ++ [(renderUrl p.1, e)] } ∧
    (renderUrl p.1, e) ∈ (crawl cfg fetch hs (f + 1) st).errors := by
  have h1 := crawl_succ_of_frontier cfg fetch hs f st p rest hfr
  have h2 := crawlStep_failure cfg fetch hs st p rest e hfr hv he
  refine ⟨by rw [h1, h2], ?_⟩
  rw [h1, h2]
  exact crawl_errors_mono cfg fetch hs f _ _
    (List.mem_append.mpr (.inr (List.mem_singleton.mpr rfl)))

/-- Witness for C8: against a Fetcher that times out on every request, the
seed page's failure is recorded and the crawl still returns, with the error
enumerated. -/
theorem page_failure_recorded_crawl_continues_witness :
    (initState seedW).frontier = (seedW, 0) :: [] ∧
    seedW ∉ visitedUrls (initState seedW) ∧
    getMarkup cfgPlain fetchFail seedW = .error "timeout" ∧
    (crawl cfgPlain fetchFail "example.com" 1 (initState seedW) =
        crawl cfgPlain fetchFail "example.com" 0
          ⟨[(seedW, 0)], [], [(renderUrl seedW, "timeout")], emptyFindings, []⟩ ∧
      (renderUrl seedW, "timeout") ∈
        (crawl cfgPlain fetchFail "example.com" 1 (initState seedW)).errors) :=
  ⟨rfl, by decide, rfl,
   page_failure_recorded_crawl_continues cfgPlain fetchFail "example.com" 0 (initState seedW)
     (seedW, 0) [] "timeout" rfl (by decide) rfl⟩
